import Mathlib

/-!
Shallow embedding of `src/src/buffer/out/Row.cpp` (the `ROW` class of a
terminal screen buffer) together with interface models of its two storage
collaborators, `CharRow` (glyph storage) and `ATTR_ROW` (attribute run
storage), which are not part of the sources and are therefore modelled
from the specification at their interface boundary.

Conventions of the embedding:
- glyphs and text attributes are abstracted as natural numbers;
- fallible collaborator operations (`CharRow::Resize`, `ATTR_ROW::Resize`,
  `ATTR_ROW::Reset`) take an explicit Boolean oracle saying whether the
  allocation inside the collaborator succeeds on this call;
- C++ exceptions / failed HRESULTs surface as `none` / a `false` result flag;
- `size_t` arithmetic that can wrap is made explicit with `sub64`.
-/

/-- Width classification of one column's glyph (the `DbcsAttr` of a cell):
a narrow (single) glyph, or the leading/trailing half of a wide glyph. -/
inductive DbcsAttr where
  | single
  | leading
  | trailing
  deriving DecidableEq, Repr

/-- The empty/default glyph a cleared column holds (the space character). -/
def emptyGlyph : Nat := 32

/-- Modelled from the spec: Glyph Storage (`CharRow`), per-column storage of
the displayed glyph and its width classification. -/
structure CharRow where
  cells : List (Nat × DbcsAttr)
  deriving DecidableEq, Repr

namespace CharRow

/-- `CharRow::size`: the width in columns of the glyph storage. -/
def size (c : CharRow) : Nat := c.cells.length

/-- Modelled from the spec: construction with `width` empty columns. -/
def init (w : Nat) : CharRow := ⟨List.replicate w (emptyGlyph, DbcsAttr.single)⟩

/-- Modelled from the spec: `CharRow::Reset` clears every column to the empty
default; it always succeeds. The width is unchanged. -/
def Reset (c : CharRow) : CharRow :=
  ⟨List.replicate c.cells.length (emptyGlyph, DbcsAttr.single)⟩

/-- Modelled from the spec: `CharRow::Resize` grows or shrinks to `w` columns,
preserving the prefix that still exists and filling new columns with the empty
default. The Boolean oracle `ok` says whether the internal allocation
succeeds; on failure the storage is unchanged and a failed result is returned
(`none`). -/
def Resize (ok : Bool) (c : CharRow) (w : Nat) : Option CharRow :=
  if ok then
    some ⟨c.cells.take w ++ List.replicate (w - c.cells.length) (emptyGlyph, DbcsAttr.single)⟩
  else none

/-- Modelled from the spec: `CharRow::ClearCell` resets the one column to the
empty default glyph. -/
def ClearCell (c : CharRow) (column : Nat) : CharRow :=
  ⟨c.cells.set column (emptyGlyph, DbcsAttr.single)⟩

/-- Modelled from the spec: `CharRow::GlyphAt`, bounds-checked per-column read
of the glyph; out-of-range access is a contract violation (`none`). -/
def GlyphAt (c : CharRow) (column : Nat) : Option Nat :=
  (c.cells[column]?).map Prod.fst

/-- Modelled from the spec: `CharRow::DbcsAttrAt`, bounds-checked per-column
read of the width classification. -/
def DbcsAttrAt (c : CharRow) (column : Nat) : Option DbcsAttr :=
  (c.cells[column]?).map Prod.snd

end CharRow

/-- Modelled from the spec: Attribute Run Storage (`ATTR_ROW`), per-column
color/style attributes compacted as runs `(attribute, run length)`. -/
structure ATTR_ROW where
  runs : List (Nat × Nat)
  deriving DecidableEq, Repr

namespace ATTR_ROW

/-- The per-column view of a run list: each run `(a, len)` contributes `len`
consecutive columns with attribute `a`. -/
def expand (runs : List (Nat × Nat)) : List Nat :=
  (runs.map (fun p => List.replicate p.2 p.1)).flatten

/-- The width in columns of the attribute storage. -/
def width (a : ATTR_ROW) : Nat := (expand a.runs).length

/-- Modelled from the spec: construction with `w` columns all set to `fill`. -/
def init (w : Nat) (fill : Nat) : ATTR_ROW := ⟨[(fill, w)]⟩

/-- Modelled from the spec: `ATTR_ROW::Reset` replaces the contents with a
single run of `fill` spanning the full current width; the run-encoding
allocation may fail (oracle `ok`), in which case the storage is unchanged and
the failure is reported (`none`, a thrown exception in the source). -/
def Reset (ok : Bool) (a : ATTR_ROW) (fill : Nat) : Option ATTR_ROW :=
  if ok then some ⟨[(fill, a.width)]⟩ else none

/-- The attribute used to fill newly added columns on growth: the storage's
own default-fill policy extends the last run (`0` for an empty storage). -/
def lastFill (a : ATTR_ROW) : Nat := (expand a.runs).getLast?.getD 0

/-- Modelled from the spec: `ATTR_ROW::Resize` to `w` columns, preserving the
per-column attributes that still exist and extending the last run over newly
added columns; allocation may fail (oracle `ok`), in which case the storage is
unchanged and the failure is reported (`none`). -/
def Resize (ok : Bool) (a : ATTR_ROW) (w : Nat) : Option ATTR_ROW :=
  if ok then
    some ⟨((expand a.runs).take w ++ List.replicate (w - a.width) (lastFill a)).map
      (fun x => (x, 1))⟩
  else none

/-- Modelled from the spec: random access by column into the run list, scanning
runs from the start; out-of-range columns are a contract violation (`none`). -/
def GetAttrByColumn : List (Nat × Nat) → Nat → Option Nat
  | [], _ => none
  | (a, len) :: rest, c => if c < len then some a else GetAttrByColumn rest (c - len)

/-- `ATTR_ROW::GetAttrByColumn` on the storage. -/
def GetAttr (a : ATTR_ROW) (c : Nat) : Option Nat := GetAttrByColumn a.runs c

/-- Modelled from the spec: a forward iterator positioned at column `c`
(`std::next(begin(), c)`); its state is the per-column suffix from `c`,
`head?` is the dereference and `tail` the advance. Dereferencing the
past-the-end iterator is a contract violation (`none`). -/
def iterFrom (a : ATTR_ROW) (c : Nat) : List Nat := (expand a.runs).drop c

end ATTR_ROW

/-- One column's immutable snapshot (`OutputCell`): glyph, width
classification, and color/style attribute. -/
structure OutputCell where
  glyph : Nat
  dbcsAttr : DbcsAttr
  attr : Nat
  deriving DecidableEq, Repr

/-- The `ROW` class of `Row.cpp`: recorded width, owned glyph storage and
attribute storage, row id, and the non-owning parent buffer reference
(abstracted as an opaque handle). -/
structure ROW where
  id : Int
  rowWidth : Nat
  charRow : CharRow
  attrRow : ATTR_ROW
  pParent : Nat
  deriving DecidableEq, Repr

/-- Unsigned 64-bit subtraction (`size_t` arithmetic): `a - b` modulo `2^64`. -/
def sub64 (a b : Nat) : Nat := (a % 2 ^ 64 + (2 ^ 64 - b % 2 ^ 64)) % 2 ^ 64

namespace ROW

/-- `ROW::ROW(rowId, rowWidth, fillAttribute, pParent)`: glyph storage of
`rowWidth` empty columns, attribute storage of `rowWidth` columns all set to
`fillAttribute`. -/
def construct (rowId : Int) (rowWidth : Nat) (fillAttribute : Nat) (parent : Nat) : ROW :=
  ⟨rowId, rowWidth, CharRow.init rowWidth, ATTR_ROW.init rowWidth fillAttribute, parent⟩

/-- `ROW::size`: the recorded width. -/
def size (r : ROW) : Nat := r.rowWidth

/-- `ROW::GetId`. -/
def GetId (r : ROW) : Int := r.id

/-- `ROW::SetId`. -/
def SetId (r : ROW) (i : Int) : ROW := { r with id := i }

/-- `ROW::Reset(Attr)`: unconditionally resets the glyph storage, then tries
to reset the attribute storage; a caught exception there yields `false`,
otherwise `true`. Returns the result flag and the row's state after the call. -/
def Reset (okAttr : Bool) (r : ROW) (attr : Nat) : Bool × ROW :=
  let r1 : ROW := { r with charRow := r.charRow.Reset }
  match ATTR_ROW.Reset okAttr r1.attrRow attr with
  | none => (false, r1)
  | some ar => (true, { r1 with attrRow := ar })

/-- `ROW::Resize(width)`: resizes the glyph storage first
(`RETURN_IF_FAILED`), then the attribute storage (`CATCH_RETURN`), and only
after both succeed records the new width. Returns the success flag and the
row's state after the call. -/
def Resize (okChar okAttr : Bool) (r : ROW) (w : Nat) : Bool × ROW :=
  match CharRow.Resize okChar r.charRow w with
  | none => (false, r)
  | some cr =>
    match ATTR_ROW.Resize okAttr r.attrRow w with
    | none => (false, { r with charRow := cr })
    | some ar => (true, { r with charRow := cr, attrRow := ar, rowWidth := w })

/-- `ROW::ClearColumn(column)`: `THROW_HR_IF(E_INVALIDARG, column >=
_charRow.size())`, then clears the one glyph cell. The flag is `true` when
the contract violation was raised (and the row is untouched). -/
def ClearColumn (r : ROW) (column : Nat) : Bool × ROW :=
  if r.charRow.size ≤ column then (true, r)
  else (false, { r with charRow := r.charRow.ClearCell column })

/-- The pairing rule shared by `ROW::at` and the cell extraction: glyph and
width class from the glyph storage, attribute by random access. -/
def cellAtCore (cr : CharRow) (a : ATTR_ROW) (column : Nat) : Option OutputCell :=
  match cr.GlyphAt column, cr.DbcsAttrAt column, a.GetAttr column with
  | some g, some d, some at_ => some ⟨g, d, at_⟩
  | _, _, _ => none

/-- `ROW::at(column)`: the bounds-checked single-cell accessor (`GetCellAt`);
a contract violation in either storage propagates as `none`. -/
def cellAt (r : ROW) (column : Nat) : Option OutputCell :=
  cellAtCore r.charRow r.attrRow column

/-- The loop of `ROW::AsCells(startIndex, count)`: at each step read the glyph
and width class at `index` and dereference the attribute iterator, then
advance both; a contract violation at any step propagates as `none`. -/
def asCellsLoop (cr : CharRow) : List Nat → Nat → Nat → Option (List OutputCell)
  | _, _, 0 => some []
  | it, index, count + 1 =>
    match cr.GlyphAt index, cr.DbcsAttrAt index, it.head? with
    | some g, some d, some a =>
      match asCellsLoop cr it.tail (index + 1) count with
      | some rest => some (⟨g, d, a⟩ :: rest)
      | none => none
    | _, _, _ => none

/-- `ROW::AsCells(startIndex, count)`: iterator-based extraction of the cells
of columns `[startIndex, startIndex + count)`. -/
def AsCells2 (r : ROW) (startIndex count : Nat) : Option (List OutputCell) :=
  asCellsLoop r.charRow (r.attrRow.iterFrom startIndex) startIndex count

/-- `ROW::AsCells(startIndex)`: delegates with `count = size() - startIndex`
computed in `size_t` arithmetic. -/
def AsCells1 (r : ROW) (startIndex : Nat) : Option (List OutputCell) :=
  r.AsCells2 startIndex (sub64 r.size startIndex)

/-- `ROW::AsCells()`: the full row, `AsCells(0, size())`. -/
def AsCells0 (r : ROW) : Option (List OutputCell) :=
  r.AsCells2 0 r.size

/-- The width invariant of the spec: glyph storage width, attribute storage
width and the row's recorded width agree. -/
def WellFormed (r : ROW) : Prop :=
  r.charRow.size = r.rowWidth ∧ r.attrRow.width = r.rowWidth

instance (r : ROW) : Decidable (ROW.WellFormed r) :=
  decidable_of_iff (r.charRow.size = r.rowWidth ∧ r.attrRow.width = r.rowWidth) Iff.rfl

/-- Boolean form of the width invariant, for running operation sequences. -/
def widthInvB (r : ROW) : Bool :=
  (r.charRow.size == r.rowWidth) && (r.attrRow.width == r.rowWidth)

end ROW

/-- One mutating call on a row: a `Resize` (with the two allocation oracles)
or a `Reset` (with the attribute-storage allocation oracle). -/
inductive RowOp where
  | resize (okChar okAttr : Bool) (w : Nat)
  | reset (okAttr : Bool) (attr : Nat)
  deriving DecidableEq, Repr

/-- Apply one call, returning its success flag and the row afterwards. -/
def applyOp (r : ROW) : RowOp → Bool × ROW
  | RowOp.resize okC okA w => r.Resize okC okA w
  | RowOp.reset okA a => r.Reset okA a

/-- Runs a sequence of calls and checks that after each call that reports
success the width invariant holds. -/
def okAfterEachSuccess : ROW → List RowOp → Bool
  | _, [] => true
  | r, op :: ops =>
    let p := applyOp r op
    (!p.1 || ROW.widthInvB p.2) && okAfterEachSuccess p.2 ops

/-- Runs a sequence of calls and checks that every call reports success. -/
def allSucceed : ROW → List RowOp → Bool
  | _, [] => true
  | r, op :: ops =>
    let p := applyOp r op
    p.1 && allSucceed p.2 ops

/-- A sample constructed row (width 3, fill attribute 7) used to witness
hypotheses at concrete inputs. -/
def sampleRow : ROW := ROW.construct 0 3 7 0

/-! ### Width bookkeeping lemmas for the storage models -/

theorem ATTR_ROW.expand_cons (a len : Nat) (rest : List (Nat × Nat)) :
    ATTR_ROW.expand ((a, len) :: rest) = List.replicate len a ++ ATTR_ROW.expand rest := by
  simp [ATTR_ROW.expand]

theorem ATTR_ROW.expand_map_singleton (l : List Nat) :
    ATTR_ROW.expand (l.map (fun x => (x, 1))) = l := by
  induction l with
  | nil => simp [ATTR_ROW.expand]
  | cons x rest ih => simpa [ATTR_ROW.expand] using congrArg (List.cons x) ih

theorem ATTR_ROW.getAttrByColumn_eq_expand (runs : List (Nat × Nat)) (c : Nat) :
    ATTR_ROW.GetAttrByColumn runs c = (ATTR_ROW.expand runs)[c]? := by
  induction runs generalizing c with
  | nil => simp [ATTR_ROW.GetAttrByColumn, ATTR_ROW.expand]
  | cons p rest ih =>
    obtain ⟨a, len⟩ := p
    rw [ATTR_ROW.expand_cons, ATTR_ROW.GetAttrByColumn]
    by_cases h : c < len
    · rw [if_pos h, List.getElem?_append_left (by simpa using h)]
      simp [h]
    · rw [if_neg h, List.getElem?_append_right (by simpa using Nat.le_of_not_lt h), ih]
      simp

theorem ATTR_ROW.width_init (w fill : Nat) : (ATTR_ROW.init w fill).width = w := by
  simp [ATTR_ROW.width, ATTR_ROW.init, ATTR_ROW.expand]

theorem ATTR_ROW.width_resize (a : ATTR_ROW) (w : Nat) (a' : ATTR_ROW)
    (h : ATTR_ROW.Resize true a w = some a') : a'.width = w := by
  simp only [ATTR_ROW.Resize, if_pos, Option.some.injEq] at h
  subst h
  simp only [ATTR_ROW.width, ATTR_ROW.expand_map_singleton, List.length_append,
    List.length_take, List.length_replicate]
  have : (ATTR_ROW.expand a.runs).length = a.width := rfl
  omega

theorem ATTR_ROW.width_reset (a : ATTR_ROW) (fill : Nat) (a' : ATTR_ROW)
    (h : ATTR_ROW.Reset true a fill = some a') : a'.width = a.width := by
  simp only [ATTR_ROW.Reset, if_pos, Option.some.injEq] at h
  subst h
  simp [ATTR_ROW.width, ATTR_ROW.expand]

theorem CharRow.size_init (w : Nat) : (CharRow.init w).size = w := by
  simp [CharRow.size, CharRow.init]

theorem CharRow.size_reset (c : CharRow) : c.Reset.size = c.size := by
  simp [CharRow.size, CharRow.Reset]

theorem CharRow.size_resize (c : CharRow) (w : Nat) (c' : CharRow)
    (h : CharRow.Resize true c w = some c') : c'.size = w := by
  simp only [CharRow.Resize, if_pos, Option.some.injEq] at h
  subst h
  simp only [CharRow.size, List.length_append, List.length_take, List.length_replicate]
  omega

theorem ROW.widthInvB_construct (rowId : Int) (w fill parent : Nat) :
    ROW.widthInvB (ROW.construct rowId w fill parent) = true := by
  simp [ROW.widthInvB, ROW.construct, CharRow.size_init, ATTR_ROW.width_init]

theorem applyOp_success_inv (r : ROW) (op : RowOp)
    (hInv : ROW.widthInvB r = true) (hs : (applyOp r op).1 = true) :
    ROW.widthInvB (applyOp r op).2 = true := by
  cases op with
  | resize okC okA w =>
    cases okC with
    | false => simp [applyOp, ROW.Resize, CharRow.Resize] at hs
    | true =>
      cases okA with
      | false => simp [applyOp, ROW.Resize, CharRow.Resize, ATTR_ROW.Resize] at hs
      | true =>
        have hc := CharRow.size_resize r.charRow w _ rfl
        have ha := ATTR_ROW.width_resize r.attrRow w _ rfl
        simp only [applyOp, ROW.Resize, CharRow.Resize, ATTR_ROW.Resize, if_pos,
          ROW.widthInvB] at hc ha ⊢
        rw [hc, ha]
        simp
  | reset okA a =>
    cases okA with
    | false =>
      simp only [applyOp, ROW.Reset, ATTR_ROW.Reset] at hs
      simp at hs
    | true =>
      have ha := ATTR_ROW.width_reset r.attrRow a _ rfl
      simp only [ROW.widthInvB, Bool.and_eq_true, beq_iff_eq] at hInv
      simp only [applyOp, ROW.Reset, ATTR_ROW.Reset, if_pos, ROW.widthInvB,
        Bool.and_eq_true, beq_iff_eq]
      exact ⟨by simpa [CharRow.size_reset] using hInv.1, by simpa [ha] using hInv.2⟩

theorem okAfter_of_allSucceed (r : ROW) (ops : List RowOp)
    (hInv : ROW.widthInvB r = true) (h : allSucceed r ops = true) :
    okAfterEachSuccess r ops = true := by
  induction ops generalizing r with
  | nil => rfl
  | cons op ops ih =>
    simp only [allSucceed, Bool.and_eq_true] at h
    have hInv2 := applyOp_success_inv r op hInv h.1
    simp only [okAfterEachSuccess, Bool.and_eq_true]
    exact ⟨by simp [h.1, hInv2], ih _ hInv2 h.2⟩

/-- C1 counterexample: starting from a row of width 2, a `Resize` to 3 whose
attribute-storage step fails (reporting failure) followed by a `Reset` that
succeeds (reporting success) leaves the widths unequal after a call that
reported success. -/
theorem row_width_invariant_counterexample :
    ¬ (okAfterEachSuccess (ROW.construct 0 2 0 0)
        [RowOp.resize true false 3, RowOp.reset true 0] = true) := by decide

/-- C1 (amended): for every sequence of `Resize`/`Reset` calls after
construction in which every call succeeds, the glyph storage's width, the
attribute storage's width, and the row's recorded width are all equal after
construction and after each call. -/
theorem row_width_invariant_successful_ops (rowId : Int) (w fill parent : Nat)
    (ops : List RowOp)
    (h : allSucceed (ROW.construct rowId w fill parent) ops = true) :
    ROW.widthInvB (ROW.construct rowId w fill parent) = true ∧
    okAfterEachSuccess (ROW.construct rowId w fill parent) ops = true :=
  ⟨ROW.widthInvB_construct rowId w fill parent,
    okAfter_of_allSucceed _ _ (ROW.widthInvB_construct rowId w fill parent) h⟩

theorem row_width_invariant_successful_ops_witness :
    (allSucceed (ROW.construct 0 2 0 0) [RowOp.resize true true 3, RowOp.reset true 5] = true) ∧
    (ROW.widthInvB (ROW.construct 0 2 0 0) = true ∧
      okAfterEachSuccess (ROW.construct 0 2 0 0)
        [RowOp.resize true true 3, RowOp.reset true 5] = true) :=
  ⟨by decide, row_width_invariant_successful_ops 0 2 0 0 _ (by decide)⟩

/-- C2: `Resize` resizes the glyph storage first; if that fails the row is
unchanged (in particular its recorded width) and failure is returned; if the
attribute-storage resize then fails, failure is returned and the recorded
width is still unchanged; the recorded width becomes `newWidth` exactly when
both sub-resizes succeed. -/
theorem resize_failure_policy (r : ROW) (w : Nat) (okA : Bool) :
    ((ROW.Resize false okA r w).1 = false ∧ (ROW.Resize false okA r w).2 = r) ∧
    ((ROW.Resize true false r w).1 = false ∧
      (ROW.Resize true false r w).2.rowWidth = r.rowWidth) ∧
    ((ROW.Resize true true r w).1 = true ∧ (ROW.Resize true true r w).2.rowWidth = w) :=
  ⟨⟨rfl, rfl⟩, ⟨rfl, rfl⟩, rfl, rfl⟩

/-- C3: `Reset` always applies the glyph-storage clear first; if the
attribute-storage reset fails, `Reset` returns `false` and the row keeps the
cleared glyphs together with the previous (stale) attribute run; if it
succeeds, `Reset` returns `true` and the attributes become a single run of the
fill attribute over the full width. -/
theorem reset_partial_success (r : ROW) (a : Nat) :
    ((ROW.Reset false r a).1 = false ∧
      (ROW.Reset false r a).2.charRow = r.charRow.Reset ∧
      (ROW.Reset false r a).2.attrRow = r.attrRow) ∧
    ((ROW.Reset true r a).1 = true ∧
      (ROW.Reset true r a).2.charRow = r.charRow.Reset ∧
      (ROW.Reset true r a).2.attrRow = ATTR_ROW.mk [(a, r.attrRow.width)]) :=
  ⟨⟨rfl, rfl, rfl⟩, rfl, rfl, rfl⟩

/-- C10: `SetId` changes only the stored id — width, glyph storage, attribute
storage, and parent reference are unchanged — and `GetId` then returns exactly
the id that was set. -/
theorem setId_isolated (r : ROW) (i : Int) :
    (r.SetId i).GetId = i ∧ (r.SetId i).rowWidth = r.rowWidth ∧
    (r.SetId i).charRow = r.charRow ∧ (r.SetId i).attrRow = r.attrRow ∧
    (r.SetId i).pParent = r.pParent :=
  ⟨rfl, rfl, rfl, rfl, rfl⟩

/-! ### Cell access lemmas -/

theorem ROW.cellAt_eq (r : ROW) (col : Nat) :
    r.cellAt col = (r.charRow.cells[col]?).bind (fun gd =>
      ((ATTR_ROW.expand r.attrRow.runs)[col]?).map (fun x => ⟨gd.1, gd.2, x⟩)) := by
  unfold ROW.cellAt ROW.cellAtCore CharRow.GlyphAt CharRow.DbcsAttrAt ATTR_ROW.GetAttr
  rw [ATTR_ROW.getAttrByColumn_eq_expand]
  cases r.charRow.cells[col]? <;> cases (ATTR_ROW.expand r.attrRow.runs)[col]? <;> rfl

theorem ROW.asCellsLoop_spec (cr : CharRow) (a : ATTR_ROW) (count : Nat) :
    ∀ idx, idx + count ≤ cr.size → idx + count ≤ a.width →
      ∃ l, ROW.asCellsLoop cr (ATTR_ROW.iterFrom a idx) idx count = some l ∧
        l.length = count ∧
        ∀ i, i < count → l[i]? = ROW.cellAtCore cr a (idx + i) := by
  induction count with
  | zero =>
    intro idx _ _
    exact ⟨[], rfl, rfl, fun i hi => absurd hi (Nat.not_lt_zero i)⟩
  | succ count ih =>
    intro idx h1 h2
    simp only [CharRow.size] at h1
    simp only [ATTR_ROW.width] at h2
    have hc : idx < cr.cells.length := by omega
    have hw : idx < (ATTR_ROW.expand a.runs).length := by omega
    obtain ⟨l', hl', hlen, hget⟩ :=
      ih (idx + 1) (by simp only [CharRow.size]; omega) (by simp only [ATTR_ROW.width]; omega)
    have hglyph : cr.GlyphAt idx = some (cr.cells[idx].1) := by
      simp [CharRow.GlyphAt, List.getElem?_eq_getElem hc]
    have hdbcs : cr.DbcsAttrAt idx = some (cr.cells[idx].2) := by
      simp [CharRow.DbcsAttrAt, List.getElem?_eq_getElem hc]
    have hattr : ((ATTR_ROW.expand a.runs))[idx]? = some ((ATTR_ROW.expand a.runs)[idx]) :=
      List.getElem?_eq_getElem hw
    have hhead : (ATTR_ROW.iterFrom a idx).head? = some ((ATTR_ROW.expand a.runs)[idx]) := by
      rw [ATTR_ROW.iterFrom, List.head?_eq_getElem?, List.getElem?_drop, Nat.add_zero, hattr]
    have htail : (ATTR_ROW.iterFrom a idx).tail = ATTR_ROW.iterFrom a (idx + 1) := by
      rw [ATTR_ROW.iterFrom, List.tail_drop, ATTR_ROW.iterFrom]
    refine ⟨⟨cr.cells[idx].1, cr.cells[idx].2, (ATTR_ROW.expand a.runs)[idx]⟩ :: l', ?_, by
      simp [hlen], ?_⟩
    · rw [ROW.asCellsLoop, hglyph, hdbcs, hhead, htail, hl']
    · intro i hi
      match i with
      | 0 =>
        simp only [List.getElem?_cons_zero, ROW.cellAtCore, Nat.add_zero, hglyph, hdbcs,
          ATTR_ROW.GetAttr, ATTR_ROW.getAttrByColumn_eq_expand, hattr]
      | i + 1 =>
        have : idx + 1 + i = idx + (i + 1) := by omega
        rw [List.getElem?_cons_succ, hget i (by omega), this]

theorem ROW.asCellsLoop_glyph_bound (cr : CharRow) (count : Nat) :
    ∀ it idx l, ROW.asCellsLoop cr it idx count = some l →
      ∀ i, i < count → idx + i < cr.size := by
  induction count with
  | zero => intro it idx l _ i hi; exact absurd hi (Nat.not_lt_zero i)
  | succ count ih =>
    intro it idx l h i hi
    rw [ROW.asCellsLoop] at h
    cases hg : cr.GlyphAt idx with
    | none => rw [hg] at h; exact absurd h (by simp)
    | some g =>
      have hidx : idx < cr.size := by
        by_contra hge
        have : cr.cells[idx]? = none :=
          List.getElem?_eq_none (by simpa [CharRow.size] using Nat.le_of_not_lt hge)
        simp [CharRow.GlyphAt, this] at hg
      rw [hg] at h
      cases hd : cr.DbcsAttrAt idx with
      | none => rw [hd] at h; exact absurd h (by simp)
      | some d =>
        rw [hd] at h
        cases ha : it.head? with
        | none => rw [ha] at h; exact absurd h (by simp)
        | some a =>
          rw [ha] at h
          cases hr : ROW.asCellsLoop cr it.tail (idx + 1) count with
          | none => rw [hr] at h; exact absurd h (by simp)
          | some rest =>
            match i with
            | 0 => simpa using hidx
            | i + 1 =>
              have := ih it.tail (idx + 1) rest hr i (by omega)
              omega

theorem sub64_of_le (a b : Nat) (hb : b ≤ a) (ha : a < 2 ^ 64) : sub64 a b = a - b := by
  have e : (2 : Nat) ^ 64 = 18446744073709551616 := by norm_num
  unfold sub64
  rw [e] at ha ⊢
  omega

theorem sub64_of_gt (a b : Nat) (hab : a < b) (hb : b < 2 ^ 64) :
    sub64 a b = 2 ^ 64 - (b - a) := by
  have e : (2 : Nat) ^ 64 = 18446744073709551616 := by norm_num
  unfold sub64
  rw [e] at hb ⊢
  omega

/-- C4: on a consistent row of width `W`, the single-cell accessor at column
`W` and the range accessor `AsCells(0, W + 1)` both signal a contract
violation (`none`) instead of reading out of range or silently truncating. -/
theorem bounds_check_accessors (r : ROW) (hw : ROW.WellFormed r) :
    r.cellAt r.rowWidth = none ∧ r.AsCells2 0 (r.rowWidth + 1) = none := by
  obtain ⟨h1, _⟩ := hw
  constructor
  · rw [ROW.cellAt_eq, List.getElem?_eq_none (by simpa [CharRow.size] using h1.le)]
    rfl
  · cases hval : r.AsCells2 0 (r.rowWidth + 1) with
    | none => rfl
    | some l =>
      have hb := ROW.asCellsLoop_glyph_bound r.charRow (r.rowWidth + 1) _ 0 l hval
        r.rowWidth (by omega)
      rw [h1] at hb
      omega

theorem bounds_check_accessors_witness :
    ROW.WellFormed sampleRow ∧
    (sampleRow.cellAt sampleRow.rowWidth = none ∧
      sampleRow.AsCells2 0 (sampleRow.rowWidth + 1) = none) :=
  ⟨by decide, bounds_check_accessors sampleRow (by decide)⟩

/-- C5: on a consistent row, for every in-range extraction
(`startColumn + count ≤ width`), `AsCells(startColumn, count)` succeeds with
exactly `count` cells whose `i`-th cell is exactly what the random-access
accessor `at(startColumn + i)` returns. -/
theorem cells_iterator_agrees_random_access (r : ROW) (s count : Nat)
    (hw : ROW.WellFormed r) (hc : s + count ≤ r.rowWidth) :
    ∃ l, r.AsCells2 s count = some l ∧ l.length = count ∧
      ∀ i, i < count → l[i]? = r.cellAt (s + i) := by
  obtain ⟨h1, h2⟩ := hw
  exact ROW.asCellsLoop_spec r.charRow r.attrRow count s (by omega) (by omega)

theorem cells_iterator_agrees_random_access_witness :
    (ROW.WellFormed sampleRow ∧ 1 + 2 ≤ sampleRow.rowWidth) ∧
    (∃ l, sampleRow.AsCells2 1 2 = some l ∧ l.length = 2 ∧
      ∀ i, i < 2 → l[i]? = sampleRow.cellAt (1 + i)) :=
  ⟨⟨by decide, by decide⟩,
    cells_iterator_agrees_random_access sampleRow 1 2 (by decide) (by decide)⟩

/-- C6: on a consistent row, clearing an in-range column `k` reports no
contract violation, keeps the recorded width, replaces the glyph at `k` by the
empty default while keeping that column's attribute, and leaves every other
column's cell (glyph and attribute) unchanged. -/
theorem clear_column_isolation (r : ROW) (k : Nat)
    (hw : ROW.WellFormed r) (hk : k < r.rowWidth) :
    (r.ClearColumn k).1 = false ∧
    (r.ClearColumn k).2.rowWidth = r.rowWidth ∧
    (∃ c, r.cellAt k = some c ∧
      (r.ClearColumn k).2.cellAt k = some ⟨emptyGlyph, DbcsAttr.single, c.attr⟩) ∧
    (∀ j, j ≠ k → (r.ClearColumn k).2.cellAt j = r.cellAt j) := by
  obtain ⟨h1, h2⟩ := hw
  have hk1 : k < r.charRow.cells.length := by
    simp only [CharRow.size] at h1; omega
  have hk2 : k < (ATTR_ROW.expand r.attrRow.runs).length := by
    simp only [ATTR_ROW.width] at h2; omega
  have he : r.ClearColumn k = (false, { r with charRow := r.charRow.ClearCell k }) := by
    rw [ROW.ClearColumn, if_neg (by simp only [CharRow.size]; omega)]
  rw [he]
  refine ⟨rfl, rfl, ⟨⟨r.charRow.cells[k].1, r.charRow.cells[k].2,
    (ATTR_ROW.expand r.attrRow.runs)[k]⟩, ?_, ?_⟩, ?_⟩
  · rw [ROW.cellAt_eq, List.getElem?_eq_getElem hk1, List.getElem?_eq_getElem hk2]
    rfl
  · rw [ROW.cellAt_eq]
    simp only [CharRow.ClearCell]
    rw [List.getElem?_set_self (by simpa using hk1), List.getElem?_eq_getElem hk2]
    rfl
  · intro j hj
    rw [ROW.cellAt_eq, ROW.cellAt_eq]
    simp only [CharRow.ClearCell]
    rw [List.getElem?_set_ne (by omega)]

theorem clear_column_isolation_witness :
    (ROW.WellFormed sampleRow ∧ 1 < sampleRow.rowWidth) ∧
    ((sampleRow.ClearColumn 1).1 = false ∧
      (sampleRow.ClearColumn 1).2.rowWidth = sampleRow.rowWidth ∧
      (∃ c, sampleRow.cellAt 1 = some c ∧
        (sampleRow.ClearColumn 1).2.cellAt 1 = some ⟨emptyGlyph, DbcsAttr.single, c.attr⟩) ∧
      (∀ j, j ≠ 1 → (sampleRow.ClearColumn 1).2.cellAt j = sampleRow.cellAt j)) :=
  ⟨⟨by decide, by decide⟩, clear_column_isolation sampleRow 1 (by decide) (by decide)⟩

/-- C7: on a consistent row of width `W`, `ClearColumn(column)` raises the
invalid-argument contract violation exactly when `column ≥ W`, and when it
raises, the row is unchanged. -/
theorem clear_column_bounds (r : ROW) (c : Nat) (hw : ROW.WellFormed r) :
    ((r.ClearColumn c).1 = true ↔ r.rowWidth ≤ c) ∧
    ((r.ClearColumn c).1 = true → (r.ClearColumn c).2 = r) := by
  obtain ⟨h1, _⟩ := hw
  simp only [CharRow.size] at h1
  by_cases h : r.charRow.size ≤ c
  · have he : r.ClearColumn c = (true, r) := by rw [ROW.ClearColumn, if_pos h]
    rw [he]
    simp only [CharRow.size] at h
    exact ⟨by simp; omega, fun _ => rfl⟩
  · have he : r.ClearColumn c = (false, { r with charRow := r.charRow.ClearCell c }) := by
      rw [ROW.ClearColumn, if_neg h]
    rw [he]
    simp only [CharRow.size] at h
    constructor
    · simp
      omega
    · intro hfalse
      exact absurd hfalse (by simp)

theorem clear_column_bounds_witness :
    ROW.WellFormed sampleRow ∧
    (((sampleRow.ClearColumn 3).1 = true ↔ sampleRow.rowWidth ≤ 3) ∧
      ((sampleRow.ClearColumn 3).1 = true → (sampleRow.ClearColumn 3).2 = sampleRow)) :=
  ⟨by decide, clear_column_bounds sampleRow 3 (by decide)⟩

/-- C8: the no-argument `AsCells()` extracts the full row, `AsCells(0, W)`,
and for `startColumn ≤ W` (with `W` in `size_t` range) the one-argument
`AsCells(startColumn)` extracts the suffix, `AsCells(startColumn, W -
startColumn)`. -/
theorem asCells_default_overloads (r : ROW) (s : Nat)
    (hW : r.rowWidth < 2 ^ 64) (hs : s ≤ r.rowWidth) :
    r.AsCells0 = r.AsCells2 0 r.rowWidth ∧
    r.AsCells1 s = r.AsCells2 s (r.rowWidth - s) := by
  refine ⟨rfl, ?_⟩
  rw [ROW.AsCells1, show r.size = r.rowWidth from rfl, sub64_of_le _ _ hs hW]

theorem asCells_default_overloads_witness :
    (sampleRow.rowWidth < 2 ^ 64 ∧ 1 ≤ sampleRow.rowWidth) ∧
    (sampleRow.AsCells0 = sampleRow.AsCells2 0 sampleRow.rowWidth ∧
      sampleRow.AsCells1 1 = sampleRow.AsCells2 1 (sampleRow.rowWidth - 1)) :=
  ⟨⟨by decide, by decide⟩,
    asCells_default_overloads sampleRow 1 (by decide) (by decide)⟩

/-- C9 (implicit): the one-argument `AsCells(startIndex)` computes its count
as `size() - startIndex` in unsigned 64-bit arithmetic and delegates to the
two-argument overload with it; for `startIndex > width` the count wraps to the
huge value `2^64 - (startIndex - width)` (in particular larger than the
width), instead of being rejected at this interface. -/
theorem asCells_one_arg_wraps (r : ROW) (s : Nat)
    (h1 : r.rowWidth < s) (h2 : s < 2 ^ 64) :
    r.AsCells1 s = r.AsCells2 s (sub64 r.size s) ∧
    sub64 r.size s = 2 ^ 64 - (s - r.rowWidth) ∧
    r.rowWidth < sub64 r.size s := by
  refine ⟨rfl, ?_, ?_⟩
  · exact sub64_of_gt _ _ h1 h2
  · show r.rowWidth < sub64 r.rowWidth s
    rw [sub64_of_gt _ _ h1 h2]
    have e : (2 : Nat) ^ 64 = 18446744073709551616 := by norm_num
    rw [e] at h2 ⊢
    omega

theorem asCells_one_arg_wraps_witness :
    (sampleRow.rowWidth < 5 ∧ 5 < 2 ^ 64) ∧
    (sampleRow.AsCells1 5 = sampleRow.AsCells2 5 (sub64 sampleRow.size 5) ∧
      sub64 sampleRow.size 5 = 2 ^ 64 - (5 - sampleRow.rowWidth) ∧
      sampleRow.rowWidth < sub64 sampleRow.size 5) :=
  ⟨⟨by decide, by norm_num⟩, asCells_one_arg_wraps sampleRow 5 (by decide) (by norm_num)⟩
